import Mathlib

/-!
Verification of the slab allocator in software/kernel/slab.c.

The allocator state is the C struct slab_allocator; memory is modelled at
word granularity as a map from addresses (Nat) to the pointer-sized word
stored there, since the only memory accesses the allocator performs are a
pointer-sized load and a pointer-sized store at an object address.
Addresses are Nat, with 0 playing the role of the null pointer.  The
backing provider kmalloc is not part of this file; its return value is
supplied to slab_alloc as the oracle argument kret (0 models allocation
failure).  Interrupt state is a single Bool threaded through the
operations, mirroring disable_interrupts / restore_interrupts.  The
spinlock guards against concurrent callers only; the model is sequential,
so it has no observable effect and is not represented.
-/

/-- The slab_allocator struct: free_list head pointer, current wilderness
slab base pointer, offset of the next uncarved byte in it, and the two
configuration sizes.  Null pointers are the value 0. -/
structure slab_allocator where
  free_list : Nat
  wilderness_slab : Nat
  wilderness_offset : Nat
  object_size : Nat
  slab_size : Nat
deriving DecidableEq

/-- Model of disable_interrupts: returns the prior interrupt-enabled flag
and the new (suspended) flag. -/
def disable_interrupts (ints : Bool) : Bool × Bool := (ints, false)

/-- Model of restore_interrupts: the interrupt flag becomes the captured
prior value, whatever the current value is. -/
def restore_interrupts (old_flags : Bool) (_ints : Bool) : Bool := old_flags

/-- Result of one slab_alloc call: the returned object pointer, the updated
allocator, the (unchanged) memory, the final interrupt flag, and the size
of the block requested from kmalloc, if the call made a request. -/
structure AllocOut where
  object : Nat
  sa : slab_allocator
  mem : Nat → Nat
  ints : Bool
  req : Option Nat

/-- Shallow embedding of slab_alloc from slab.c.  If free_list is non-null
the head is popped (its leading word becomes the new head).  Otherwise, if
there is no wilderness slab or it cannot fit another object, a block of
slab_size bytes is requested from kmalloc (result kret, committed
unconditionally) and the offset is reset to 0; then the object at the
current offset is carved and the offset advances by object_size. -/
def slab_alloc (sa : slab_allocator) (mem : Nat → Nat) (ints : Bool)
    (kret : Nat) : AllocOut :=
  let p := disable_interrupts ints
  let old_flags := p.1
  let ints1 := p.2
  if sa.free_list ≠ 0 then
    let object := sa.free_list
    { object := object
      sa := { sa with free_list := mem object }
      mem := mem
      ints := restore_interrupts old_flags ints1
      req := none }
  else
    let needNew : Bool :=
      sa.wilderness_slab = 0 ∨
        sa.wilderness_offset + sa.object_size > sa.slab_size
    let ws := if needNew then kret else sa.wilderness_slab
    let off := if needNew then 0 else sa.wilderness_offset
    let object := ws + off
    { object := object
      sa := { sa with
                wilderness_slab := ws
                wilderness_offset := off + sa.object_size }
      mem := mem
      ints := restore_interrupts old_flags ints1
      req := if needNew then some sa.slab_size else none }

/-- Result of one slab_free call: updated allocator, updated memory and the
final interrupt flag. -/
structure FreeOut where
  sa : slab_allocator
  mem : Nat → Nat
  ints : Bool

/-- Shallow embedding of slab_free from slab.c: write the current free_list
head into the leading word of the object, then make the object the new
free_list head. -/
def slab_free (sa : slab_allocator) (mem : Nat → Nat) (ints : Bool)
    (object : Nat) : FreeOut :=
  let p := disable_interrupts ints
  let old_flags := p.1
  let ints1 := p.2
  { sa := { sa with free_list := object }
    mem := fun a => if a = object then sa.free_list else mem a
    ints := restore_interrupts old_flags ints1 }

/-- Two addresses are disjoint as ranges of s bytes. -/
def rangeDisjoint (s a b : Nat) : Prop := a + s ≤ b ∨ b + s ≤ a

instance (s a b : Nat) : Decidable (rangeDisjoint s a b) := by
  unfold rangeDisjoint; infer_instance

theorem rangeDisjoint_symm (s : Nat) :
    Symmetric (rangeDisjoint s) := by
  intro a b h; exact h.symm

theorem rangeDisjoint_ne {s a b : Nat} (hs : 0 < s)
    (h : rangeDisjoint s a b) : a ≠ b := by
  rcases h with h | h <;> omega

/-- A sample memory used to instantiate theorems at concrete inputs. -/
def zeroMem : Nat → Nat := fun _ => 0

/-- A sample allocator state: empty free list, full wilderness slab at
address 100, object_size 16, slab_size 64. -/
def saFull : slab_allocator :=
  { free_list := 0, wilderness_slab := 100, wilderness_offset := 64
    object_size := 16, slab_size := 64 }

/-- C6: when free_list is empty and the wilderness slab is absent or
cannot fit another object, slab_alloc makes exactly one request, of
slab_size bytes; the returned block replaces the wilderness slab, the
offset is reset to 0 before carving (so the returned address is the new
base plus 0 and the final offset is object_size), and memory and free_list
are untouched. -/
theorem slab_alloc_expansion (sa : slab_allocator) (mem : Nat → Nat)
    (ints : Bool) (kret : Nat)
    (hfl : sa.free_list = 0)
    (hneed : sa.wilderness_slab = 0 ∨
      sa.wilderness_offset + sa.object_size > sa.slab_size) :
    (slab_alloc sa mem ints kret).req = some sa.slab_size ∧
    (slab_alloc sa mem ints kret).object = kret + 0 ∧
    (slab_alloc sa mem ints kret).sa.wilderness_slab = kret ∧
    (slab_alloc sa mem ints kret).sa.wilderness_offset
      = 0 + sa.object_size ∧
    (slab_alloc sa mem ints kret).sa.free_list = sa.free_list ∧
    (slab_alloc sa mem ints kret).mem = mem := by
  have hb : (decide (sa.wilderness_slab = 0 ∨
      sa.wilderness_offset + sa.object_size > sa.slab_size)) = true :=
    decide_eq_true hneed
  simp [slab_alloc, hfl, hb, disable_interrupts, restore_interrupts]

/-- Witness instantiating slab_alloc_expansion at a concrete full slab. -/
theorem slab_alloc_expansion_witness :
    (slab_alloc saFull zeroMem true 200).req = some saFull.slab_size ∧
    (slab_alloc saFull zeroMem true 200).object = 200 + 0 ∧
    (slab_alloc saFull zeroMem true 200).sa.wilderness_slab = 200 ∧
    (slab_alloc saFull zeroMem true 200).sa.wilderness_offset
      = 0 + saFull.object_size ∧
    (slab_alloc saFull zeroMem true 200).sa.free_list = saFull.free_list ∧
    (slab_alloc saFull zeroMem true 200).mem = zeroMem :=
  slab_alloc_expansion saFull zeroMem true 200 (by decide) (by decide)

/-- C7: slab_free writes the current free_list head into the leading word
of the object, sets free_list to the object, changes no other memory word
and no other allocator field, restores the interrupt flag, and is a total
function (it cannot fail on any input). -/
theorem slab_free_spec (sa : slab_allocator) (mem : Nat → Nat)
    (ints : Bool) (object : Nat) :
    (slab_free sa mem ints object).mem object = sa.free_list ∧
    (slab_free sa mem ints object).sa.free_list = object ∧
    (∀ a, a ≠ object → (slab_free sa mem ints object).mem a = mem a) ∧
    (slab_free sa mem ints object).sa.wilderness_slab
      = sa.wilderness_slab ∧
    (slab_free sa mem ints object).sa.wilderness_offset
      = sa.wilderness_offset ∧
    (slab_free sa mem ints object).sa.object_size = sa.object_size ∧
    (slab_free sa mem ints object).sa.slab_size = sa.slab_size ∧
    (slab_free sa mem ints object).ints = ints := by
  refine ⟨?_, ?_, ?_, ?_, ?_, ?_, ?_, ?_⟩ <;>
    simp [slab_free, disable_interrupts, restore_interrupts]
  intro a ha
  simp [ha]

/-- Witness instantiating slab_free_spec at a concrete input. -/
theorem slab_free_spec_witness :
    (slab_free saFull zeroMem true 300).mem 300 = saFull.free_list ∧
    (slab_free saFull zeroMem true 300).sa.free_list = 300 ∧
    (∀ a, a ≠ 300 → (slab_free saFull zeroMem true 300).mem a
      = zeroMem a) ∧
    (slab_free saFull zeroMem true 300).sa.wilderness_slab
      = saFull.wilderness_slab ∧
    (slab_free saFull zeroMem true 300).sa.wilderness_offset
      = saFull.wilderness_offset ∧
    (slab_free saFull zeroMem true 300).sa.object_size
      = saFull.object_size ∧
    (slab_free saFull zeroMem true 300).sa.slab_size
      = saFull.slab_size ∧
    (slab_free saFull zeroMem true 300).ints = true :=
  slab_free_spec saFull zeroMem true 300

/-- C8: both operations capture the prior interrupt-enabled state before
suspending interrupts (disable_interrupts returns exactly that state and
leaves interrupts suspended for the critical section) and restore the
captured state on every path, so the final interrupt flag always equals
the initial one. -/
theorem interrupts_scoped :
    (∀ ints : Bool, (disable_interrupts ints).1 = ints ∧
      (disable_interrupts ints).2 = false) ∧
    (∀ (sa : slab_allocator) (mem : Nat → Nat) (ints : Bool) (kret : Nat),
      (slab_alloc sa mem ints kret).ints = ints) ∧
    (∀ (sa : slab_allocator) (mem : Nat → Nat) (ints : Bool)
      (object : Nat), (slab_free sa mem ints object).ints = ints) := by
  refine ⟨fun ints => ⟨rfl, rfl⟩, fun sa mem ints kret => ?_,
    fun sa mem ints object => rfl⟩
  by_cases h : sa.free_list ≠ 0 <;>
    simp [slab_alloc, h, disable_interrupts, restore_interrupts]

/-- C1 counterexample: with free_list empty, wilderness slab 100 full
(offset 64 = slab_size) and kmalloc failing (kret = 0), slab_alloc does
NOT leave the allocator state unchanged: the null result is committed as
the wilderness slab and the offset becomes object_size.  This refutes the
claim that the state is unchanged on provider failure. -/
theorem slab_alloc_failure_changes_state :
    (slab_alloc saFull zeroMem true 0).sa.wilderness_slab
        ≠ saFull.wilderness_slab ∧
    (slab_alloc saFull zeroMem true 0).sa.wilderness_offset
        ≠ saFull.wilderness_offset := by
  constructor <;> decide

/-- C1 amended: when the provider fails (kret = 0) on an expansion-mode
allocation, slab_alloc returns 0 (the failure propagates to the caller)
and free_list and memory are unchanged; but the wilderness state is not
preserved: the null block is committed (wilderness_slab becomes 0,
wilderness_offset becomes object_size), which forces a fresh provider
request on the next expansion-mode allocation. -/
theorem slab_alloc_failure_propagates (sa : slab_allocator)
    (mem : Nat → Nat) (ints : Bool)
    (hfl : sa.free_list = 0)
    (hneed : sa.wilderness_slab = 0 ∨
      sa.wilderness_offset + sa.object_size > sa.slab_size) :
    (slab_alloc sa mem ints 0).object = 0 ∧
    (slab_alloc sa mem ints 0).sa.free_list = sa.free_list ∧
    (slab_alloc sa mem ints 0).mem = mem ∧
    (slab_alloc sa mem ints 0).sa.wilderness_slab = 0 ∧
    (slab_alloc sa mem ints 0).sa.wilderness_offset = sa.object_size := by
  have hb : (decide (sa.wilderness_slab = 0 ∨
      sa.wilderness_offset + sa.object_size > sa.slab_size)) = true :=
    decide_eq_true hneed
  simp [slab_alloc, hfl, hb, disable_interrupts, restore_interrupts]

/-- Witness instantiating slab_alloc_failure_propagates at the concrete
full slab. -/
theorem slab_alloc_failure_propagates_witness :
    (slab_alloc saFull zeroMem true 0).object = 0 ∧
    (slab_alloc saFull zeroMem true 0).sa.free_list = saFull.free_list ∧
    (slab_alloc saFull zeroMem true 0).mem = zeroMem ∧
    (slab_alloc saFull zeroMem true 0).sa.wilderness_slab = 0 ∧
    (slab_alloc saFull zeroMem true 0).sa.wilderness_offset
      = saFull.object_size :=
  slab_alloc_failure_propagates saFull zeroMem true (by decide) (by decide)

/-- C5 counterexample: on a block turnover (wilderness slab 100 full at
offset 64, object_size 16), a successful expansion-mode allocation resets
the offset and leaves it at 16 < 64: wilderness_offset does decrease,
refuting the claim that it never decreases. -/
theorem wilderness_offset_decreases :
    (slab_alloc saFull zeroMem true 200).sa.wilderness_offset
      < saFull.wilderness_offset := by
  decide

/-- C5 amended: wilderness_offset stays within 0 and slab_size (given
object_size less than or equal to slab_size) under both operations; an
expansion-mode allocation that stays in the current slab increases it by
exactly object_size; but when a new block is requested the offset is
reset to 0 before the increment, so across a block turnover it can
decrease (it ends at object_size). -/
theorem wilderness_offset_bounded
    (sa : slab_allocator) (mem : Nat → Nat) (ints : Bool) (kret : Nat)
    (object : Nat)
    (hSK : sa.object_size ≤ sa.slab_size)
    (hoff : sa.wilderness_offset ≤ sa.slab_size) :
    (slab_alloc sa mem ints kret).sa.wilderness_offset ≤ sa.slab_size ∧
    (slab_free sa mem ints object).sa.wilderness_offset
      = sa.wilderness_offset ∧
    (sa.free_list = 0 → sa.wilderness_slab ≠ 0 →
      sa.wilderness_offset + sa.object_size ≤ sa.slab_size →
      (slab_alloc sa mem ints kret).sa.wilderness_offset
        = sa.wilderness_offset + sa.object_size) := by
  refine ⟨?_, rfl, ?_⟩
  · by_cases hfl : sa.free_list ≠ 0
    · simp [slab_alloc, hfl, disable_interrupts, restore_interrupts]
      omega
    · by_cases hneed : sa.wilderness_slab = 0 ∨
        sa.wilderness_offset + sa.object_size > sa.slab_size
      · have hb := decide_eq_true hneed
        simp [slab_alloc, hfl, hb, disable_interrupts, restore_interrupts]
        omega
      · have hb := decide_eq_false hneed
        simp [slab_alloc, hfl, hb, disable_interrupts, restore_interrupts]
        push_neg at hneed
        omega
  · intro hfl hws hfit
    have hneed : ¬ (sa.wilderness_slab = 0 ∨
        sa.wilderness_offset + sa.object_size > sa.slab_size) := by
      push_neg; exact ⟨hws, by omega⟩
    have hb := decide_eq_false hneed
    simp [slab_alloc, hfl, hb, disable_interrupts, restore_interrupts]

/-- Witness instantiating wilderness_offset_bounded at a half-carved
slab: free_list empty, wilderness slab 100 at offset 32. -/
theorem wilderness_offset_bounded_witness :
    (slab_alloc ⟨0, 100, 32, 16, 64⟩ zeroMem true 200).sa.wilderness_offset
        ≤ (64 : Nat) ∧
    (slab_free ⟨0, 100, 32, 16, 64⟩ zeroMem true 300).sa.wilderness_offset
        = (32 : Nat) ∧
    ((0 : Nat) = 0 → (100 : Nat) ≠ 0 → 32 + 16 ≤ (64 : Nat) →
      (slab_alloc ⟨0, 100, 32, 16, 64⟩ zeroMem true
        200).sa.wilderness_offset = 32 + 16) :=
  wilderness_offset_bounded ⟨0, 100, 32, 16, 64⟩ zeroMem true 200 300
    (by decide) (by decide)

/-- A sample allocator state with a non-empty free list headed at 300. -/
def saWithFree : slab_allocator :=
  { free_list := 300, wilderness_slab := 100, wilderness_offset := 32
    object_size := 16, slab_size := 64 }

/-- C3: freeing address A (non-null) and immediately allocating returns A
again, restores free_list to its value before the free, touches no
wilderness state and makes no provider request (LIFO reuse); and in
general, whenever free_list is non-null, slab_alloc pops and returns its
head, reads the new head from the leading word of the popped object, and
never interacts with the provider. -/
theorem free_then_alloc_lifo :
    (∀ (sa : slab_allocator) (mem : Nat → Nat) (ints : Bool)
      (A kret : Nat), A ≠ 0 →
      (slab_alloc (slab_free sa mem ints A).sa (slab_free sa mem ints A).mem
          ((slab_free sa mem ints A).ints) kret).object = A ∧
      (slab_alloc (slab_free sa mem ints A).sa (slab_free sa mem ints A).mem
          ((slab_free sa mem ints A).ints) kret).sa.free_list
        = sa.free_list ∧
      (slab_alloc (slab_free sa mem ints A).sa (slab_free sa mem ints A).mem
          ((slab_free sa mem ints A).ints) kret).req = none) ∧
    (∀ (sa : slab_allocator) (mem : Nat → Nat) (ints : Bool) (kret : Nat),
      sa.free_list ≠ 0 →
      (slab_alloc sa mem ints kret).object = sa.free_list ∧
      (slab_alloc sa mem ints kret).sa.free_list = mem sa.free_list ∧
      (slab_alloc sa mem ints kret).req = none) := by
  constructor
  · intro sa mem ints A kret hA
    simp [slab_alloc, slab_free, hA, disable_interrupts,
      restore_interrupts]
  · intro sa mem ints kret hfl
    simp [slab_alloc, hfl, disable_interrupts, restore_interrupts]

/-- Witness instantiating free_then_alloc_lifo: free 300 then allocate
from saFull, and pop from saWithFree. -/
theorem free_then_alloc_lifo_witness :
    ((slab_alloc (slab_free saFull zeroMem true 300).sa
        (slab_free saFull zeroMem true 300).mem
        ((slab_free saFull zeroMem true 300).ints) 200).object = 300 ∧
      (slab_alloc (slab_free saFull zeroMem true 300).sa
        (slab_free saFull zeroMem true 300).mem
        ((slab_free saFull zeroMem true 300).ints) 200).sa.free_list
        = saFull.free_list ∧
      (slab_alloc (slab_free saFull zeroMem true 300).sa
        (slab_free saFull zeroMem true 300).mem
        ((slab_free saFull zeroMem true 300).ints) 200).req = none) ∧
    ((slab_alloc saWithFree zeroMem true 200).object
        = saWithFree.free_list ∧
      (slab_alloc saWithFree zeroMem true 200).sa.free_list
        = zeroMem saWithFree.free_list ∧
      (slab_alloc saWithFree zeroMem true 200).req = none) :=
  ⟨free_then_alloc_lifo.1 saFull zeroMem true 300 200 (by decide),
   free_then_alloc_lifo.2 saWithFree zeroMem true 200 (by decide)⟩

/-- C9: frame property.  slab_free never touches wilderness_slab,
wilderness_offset, object_size or slab_size and writes memory only at the
freed object (so no byte of any other, in particular live, object
changes); slab_alloc on the reuse path (free_list non-null) leaves
wilderness_slab, wilderness_offset and all of memory unchanged; and
slab_alloc never changes object_size or slab_size on any path. -/
theorem frame_effects :
    (∀ (sa : slab_allocator) (mem : Nat → Nat) (ints : Bool) (A : Nat),
      (slab_free sa mem ints A).sa.wilderness_slab = sa.wilderness_slab ∧
      (slab_free sa mem ints A).sa.wilderness_offset
        = sa.wilderness_offset ∧
      (slab_free sa mem ints A).sa.object_size = sa.object_size ∧
      (slab_free sa mem ints A).sa.slab_size = sa.slab_size ∧
      (∀ x, x ≠ A → (slab_free sa mem ints A).mem x = mem x)) ∧
    (∀ (sa : slab_allocator) (mem : Nat → Nat) (ints : Bool) (kret : Nat),
      sa.free_list ≠ 0 →
      (slab_alloc sa mem ints kret).sa.wilderness_slab
        = sa.wilderness_slab ∧
      (slab_alloc sa mem ints kret).sa.wilderness_offset
        = sa.wilderness_offset ∧
      (slab_alloc sa mem ints kret).mem = mem) ∧
    (∀ (sa : slab_allocator) (mem : Nat → Nat) (ints : Bool) (kret : Nat),
      (slab_alloc sa mem ints kret).sa.object_size = sa.object_size ∧
      (slab_alloc sa mem ints kret).sa.slab_size = sa.slab_size ∧
      (slab_alloc sa mem ints kret).mem = mem) := by
  refine ⟨fun sa mem ints A => ⟨rfl, rfl, rfl, rfl, fun x hx => ?_⟩,
    fun sa mem ints kret hfl => ?_, fun sa mem ints kret => ?_⟩
  · simp [slab_free, hx]
  · simp [slab_alloc, hfl, disable_interrupts, restore_interrupts]
  · by_cases hfl : sa.free_list ≠ 0 <;>
      simp [slab_alloc, hfl, disable_interrupts, restore_interrupts]

/-- Witness instantiating frame_effects at concrete states. -/
theorem frame_effects_witness :
    ((slab_free saFull zeroMem true 300).sa.wilderness_slab
        = saFull.wilderness_slab ∧
      (slab_free saFull zeroMem true 300).sa.wilderness_offset
        = saFull.wilderness_offset ∧
      (slab_free saFull zeroMem true 300).sa.object_size
        = saFull.object_size ∧
      (slab_free saFull zeroMem true 300).sa.slab_size
        = saFull.slab_size ∧
      (∀ x, x ≠ 300 → (slab_free saFull zeroMem true 300).mem x
        = zeroMem x)) ∧
    ((slab_alloc saWithFree zeroMem true 200).sa.wilderness_slab
        = saWithFree.wilderness_slab ∧
      (slab_alloc saWithFree zeroMem true 200).sa.wilderness_offset
        = saWithFree.wilderness_offset ∧
      (slab_alloc saWithFree zeroMem true 200).mem = zeroMem) ∧
    ((slab_alloc saFull zeroMem true 200).sa.object_size
        = saFull.object_size ∧
      (slab_alloc saFull zeroMem true 200).sa.slab_size
        = saFull.slab_size ∧
      (slab_alloc saFull zeroMem true 200).mem = zeroMem) :=
  ⟨frame_effects.1 saFull zeroMem true 300,
   frame_effects.2.1 saWithFree zeroMem true 200 (by decide),
   frame_effects.2.2 saFull zeroMem true 200⟩

/-- Full description of a reuse-free slab_alloc call that carves from the
current wilderness slab (no new block needed). -/
theorem slab_alloc_carve (sa : slab_allocator) (mem : Nat → Nat)
    (ints : Bool) (kret : Nat)
    (hfl : sa.free_list = 0) (hws : sa.wilderness_slab ≠ 0)
    (hfit : sa.wilderness_offset + sa.object_size ≤ sa.slab_size) :
    slab_alloc sa mem ints kret =
      { object := sa.wilderness_slab + sa.wilderness_offset
        sa := { sa with wilderness_offset :=
                  sa.wilderness_offset + sa.object_size }
        mem := mem, ints := ints, req := none } := by
  have hneed : ¬ (sa.wilderness_slab = 0 ∨
      sa.wilderness_offset + sa.object_size > sa.slab_size) := by
    push_neg; exact ⟨hws, by omega⟩
  have hb := decide_eq_false hneed
  simp [slab_alloc, hfl, hb, disable_interrupts, restore_interrupts]

/-- Full description of a slab_alloc call that installs a fresh block. -/
theorem slab_alloc_newblock (sa : slab_allocator) (mem : Nat → Nat)
    (ints : Bool) (kret : Nat)
    (hfl : sa.free_list = 0)
    (hneed : sa.wilderness_slab = 0 ∨
      sa.wilderness_offset + sa.object_size > sa.slab_size) :
    slab_alloc sa mem ints kret =
      { object := kret
        sa := { sa with wilderness_slab := kret
                        wilderness_offset := sa.object_size }
        mem := mem, ints := ints, req := some sa.slab_size } := by
  have hb := decide_eq_true hneed
  simp [slab_alloc, hfl, hb, disable_interrupts, restore_interrupts]

/-- Full description of a slab_alloc call that pops the free list. -/
theorem slab_alloc_pop (sa : slab_allocator) (mem : Nat → Nat)
    (ints : Bool) (kret : Nat) (hfl : sa.free_list ≠ 0) :
    slab_alloc sa mem ints kret =
      { object := sa.free_list
        sa := { sa with free_list := mem sa.free_list }
        mem := mem, ints := ints, req := none } := by
  simp [slab_alloc, hfl, disable_interrupts, restore_interrupts]

/-- Result of a sequence of slab_alloc calls: the returned objects in
order, the final allocator, memory and interrupt flag, the provider
blocks not yet consumed, and the sizes of the provider requests made. -/
structure RunOut where
  objs : List Nat
  sa : slab_allocator
  mem : Nat → Nat
  ints : Bool
  blocks : List Nat
  reqs : List Nat

/-- Run n consecutive slab_alloc calls, feeding kmalloc results from the
front of the list blocks (a request consumes the head; an empty list
models a failing provider, returning 0). -/
def allocRun : Nat → slab_allocator → (Nat → Nat) → Bool → List Nat →
    RunOut
  | 0, sa, mem, ints, blocks => ⟨[], sa, mem, ints, blocks, []⟩
  | Nat.succ n, sa, mem, ints, blocks =>
    let o := slab_alloc sa mem ints (blocks.headD 0)
    let blocks2 := if o.req.isSome then blocks.tail else blocks
    let r := allocRun n o.sa o.mem o.ints blocks2
    ⟨o.object :: r.objs, r.sa, r.mem, r.ints, r.blocks, o.req.toList ++ r.reqs⟩

/-- Steady-state carving: from a state with empty free list, wilderness
slab base (non-null) and offset i*S, j further allocations (i + j within
capacity K) return the addresses base + (i+t)*S without any provider
request. -/
theorem allocRun_steady (base S K : Nat) (hbase : base ≠ 0) :
    ∀ j i, 0 < i → i + j ≤ K →
    ∀ (mem : Nat → Nat) (ints : Bool) (blocks : List Nat),
    allocRun j ⟨0, base, i * S, S, K * S⟩ mem ints blocks =
      ⟨(List.range j).map (fun t => base + (i + t) * S),
        ⟨0, base, (i + j) * S, S, K * S⟩, mem, ints, blocks, []⟩ := by
  intro j
  induction j with
  | zero => intro i hi hiK mem ints blocks; simp [allocRun]
  | succ j ih =>
    intro i hi hiK mem ints blocks
    have hfit : i * S + S ≤ K * S := by
      have h1 : (i + 1) * S ≤ K * S :=
        mul_le_mul_right' (by omega : i + 1 ≤ K) S
      rw [Nat.add_mul, Nat.one_mul] at h1
      exact h1
    have hstep := slab_alloc_carve ⟨0, base, i * S, S, K * S⟩ mem ints
      (blocks.headD 0) rfl hbase hfit
    have hiS : i * S + S = (i + 1) * S := by
      rw [Nat.add_mul, Nat.one_mul]
    rw [hiS] at hstep
    simp only [allocRun, hstep, Option.isSome_none, Bool.false_eq_true,
      if_false, Option.toList_none, List.nil_append]
    rw [ih (i + 1) (by omega) (by omega) mem ints blocks]
    have hij : (i + 1) + j = i + (j + 1) := by omega
    rw [hij]
    congr 1
    simp only [List.range_succ_eq_map, List.map_cons, List.map_map]
    congr 1
    refine List.map_congr_left (fun t _ => ?_)
    simp only [Function.comp_apply]
    congr 2
    omega

/-- Addresses carved at consecutive multiples of the object size are
pairwise disjoint as object_size byte ranges. -/
theorem pairwise_carvedSlots (S base n : Nat) (hS : 0 < S) :
    ((List.range n).map (fun i => base + i * S)).Pairwise
      (rangeDisjoint S) := by
  rw [List.pairwise_map]
  refine (List.pairwise_lt_range n).imp ?_
  intro a b hab
  left
  have h1 : (a + 1) * S ≤ b * S := mul_le_mul_right' (by omega) S
  rw [Nat.add_mul, Nat.one_mul] at h1
  omega

/-- C4: a fresh allocator with object_size S and slab_size K*S serves K
consecutive allocations (no frees) with exactly one provider request of
slab_size bytes, returning the addresses base + 0*S, base + 1*S, ...,
base + (K-1)*S, which are pairwise disjoint as S-byte ranges. -/
theorem k_allocations_carve (S K base : Nat) (m0 : Nat → Nat) (i0 : Bool)
    (hS : 0 < S) (hK : 0 < K) (hbase : base ≠ 0) :
    (allocRun K ⟨0, 0, 0, S, K * S⟩ m0 i0 [base]).objs
      = (List.range K).map (fun i => base + i * S) ∧
    (allocRun K ⟨0, 0, 0, S, K * S⟩ m0 i0 [base]).reqs = [K * S] ∧
    ((allocRun K ⟨0, 0, 0, S, K * S⟩ m0 i0 [base]).objs).Pairwise
      (rangeDisjoint S) := by
  obtain ⟨Kp, rfl⟩ : ∃ Kp, K = Kp + 1 := ⟨K - 1, by omega⟩
  have hstep := slab_alloc_newblock ⟨0, 0, 0, S, (Kp + 1) * S⟩ m0 i0 base
    rfl (Or.inl rfl)
  have hrun := allocRun_steady base S (Kp + 1) hbase Kp 1 (by omega)
    (by omega) m0 i0 []
  rw [Nat.one_mul] at hrun
  have hobjs : (allocRun (Kp + 1) ⟨0, 0, 0, S, (Kp + 1) * S⟩ m0 i0
      [base]).objs = (List.range (Kp + 1)).map (fun i => base + i * S) := by
    simp only [allocRun, List.headD_cons, hstep, Option.isSome_some,
      if_true, List.tail_cons, hrun]
    simp only [List.range_succ_eq_map, List.map_cons, List.map_map,
      Nat.zero_mul, Nat.add_zero]
    congr 1
    refine List.map_congr_left (fun t _ => ?_)
    simp only [Function.comp_apply]
    congr 2
    omega
  refine ⟨hobjs, ?_, ?_⟩
  · simp only [allocRun, List.headD_cons, hstep, Option.isSome_some,
      if_true, List.tail_cons, hrun]
    simp [Option.toList]
  · rw [hobjs]
    exact pairwise_carvedSlots S base (Kp + 1) hS

/-- Witness instantiating k_allocations_carve with object_size 16,
slab_size 64 (K = 4) and provider block 100. -/
theorem k_allocations_carve_witness :
    (allocRun 4 ⟨0, 0, 0, 16, 4 * 16⟩ zeroMem true [100]).objs
      = (List.range 4).map (fun i => 100 + i * 16) ∧
    (allocRun 4 ⟨0, 0, 0, 16, 4 * 16⟩ zeroMem true [100]).reqs
      = [4 * 16] ∧
    ((allocRun 4 ⟨0, 0, 0, 16, 4 * 16⟩ zeroMem true [100]).objs).Pairwise
      (rangeDisjoint 16) :=
  k_allocations_carve 16 4 100 zeroMem true (by decide) (by decide)
    (by decide)

/-- Byte x lies in the footprint of the pointer-sized word access that
slab_free performs at the start of a freed object (and that the reuse
path of slab_alloc reads back): the p bytes starting at the object. -/
def inWordFootprint (object p x : Nat) : Prop := object ≤ x ∧ x < object + p

/-- Byte x lies in the object_size byte slot that starts at the object. -/
def inSlot (object s x : Nat) : Prop := object ≤ x ∧ x < object + s

instance (object p x : Nat) : Decidable (inWordFootprint object p x) := by
  unfold inWordFootprint; infer_instance

instance (object s x : Nat) : Decidable (inSlot object s x) := by
  unfold inSlot; infer_instance

/-- C10: the pointer-sized (p byte) free-list link that slab_free stores
at a freed object A, and that the reuse path of slab_alloc loads, stays
entirely inside the object_size byte slot at A whenever object_size is at
least p, and in that case touches no byte of any disjoint slot; for any
object_size smaller than p the access does not stay inside the slot. -/
theorem word_access_in_slot (A s p : Nat) (hp : 0 < p) :
    (p ≤ s → (∀ x, inWordFootprint A p x → inSlot A s x) ∧
      (∀ B x, rangeDisjoint s A B → inWordFootprint A p x →
        ¬ inSlot B s x)) ∧
    (s < p → ¬ (∀ x, inWordFootprint A p x → inSlot A s x)) := by
  constructor
  · intro hps
    constructor
    · intro x hx
      rcases hx with ⟨h1, h2⟩
      exact ⟨h1, by omega⟩
    · intro B x hAB hx hBx
      rcases hx with ⟨h1, h2⟩
      rcases hBx with ⟨h3, h4⟩
      rcases hAB with h | h <;> omega
  · intro hsp hall
    have := hall (A + s) ⟨by omega, by omega⟩
    rcases this with ⟨h1, h2⟩
    omega

/-- Witness instantiating word_access_in_slot with a 4 byte pointer at
address 100: a 16 byte slot contains the link, a 2 byte slot does not. -/
theorem word_access_in_slot_witness :
    ((4 : Nat) ≤ 16 → (∀ x, inWordFootprint 100 4 x → inSlot 100 16 x) ∧
      (∀ B x, rangeDisjoint 16 100 B → inWordFootprint 100 4 x →
        ¬ inSlot B 16 x)) ∧
    ((16 : Nat) < 4 → ¬ (∀ x, inWordFootprint 100 4 x →
      inSlot 100 16 x)) :=
  word_access_in_slot 100 16 4 (by decide)

/-- Two block base addresses are disjoint as ranges of k bytes. -/
def blockDisjoint (k b c : Nat) : Prop := b + k ≤ c ∨ c + k ≤ b

instance (k b c : Nat) : Decidable (blockDisjoint k b c) := by
  unfold blockDisjoint; infer_instance

theorem blockDisjoint_symm (k : Nat) : Symmetric (blockDisjoint k) := by
  intro a b h; exact h.symm

/-- The in-memory free list: fl is the head pointer and l the list of
object addresses it links through, each leading word holding the next
pointer, the last one holding null. -/
def flRep (mem : Nat → Nat) : Nat → List Nat → Prop
  | fl, [] => fl = 0
  | fl, a :: rest => fl = a ∧ flRep mem (mem a) rest

/-- System state for the reachability analysis: the concrete allocator,
memory and interrupt flag, plus ghost bookkeeping of the addresses that
are live (returned and not freed), the contents of the free list, and all
block bases the provider has handed out. -/
structure Sys where
  sa : slab_allocator
  mem : Nat → Nat
  ints : Bool
  live : List Nat
  flist : List Nat
  provided : List Nat

/-- One slab_alloc call at the system level: run slab_alloc, record the
returned address as live; a pop consumes the ghost free list head, a
provider request records the new block. -/
def sysAlloc (s : Sys) (kret : Nat) : Sys :=
  let o := slab_alloc s.sa s.mem s.ints kret
  { sa := o.sa, mem := o.mem, ints := o.ints
    live := o.object :: s.live
    flist := if s.sa.free_list ≠ 0 then s.flist.tail else s.flist
    provided := if o.req.isSome then kret :: s.provided else s.provided }

/-- One slab_free call at the system level: run slab_free, move the freed
address from the live set to the ghost free list. -/
def sysFree (s : Sys) (a : Nat) : Sys :=
  let o := slab_free s.sa s.mem s.ints a
  { sa := o.sa, mem := o.mem, ints := o.ints
    live := s.live.erase a, flist := a :: s.flist
    provided := s.provided }

/-- The next slab_alloc call will have to request a block from the
provider: nothing to pop and no room in the wilderness slab. -/
def needsBlock (s : Sys) : Prop :=
  s.sa.free_list = 0 ∧ (s.sa.wilderness_slab = 0 ∨
    s.sa.wilderness_offset + s.sa.object_size > s.sa.slab_size)

/-- Transition relation of the allocator under the assumptions of the
no-overlap claim: any free of a live address, and any allocation whose
provider request (if one is needed) succeeds with a non-null block that
does not overlap any block handed out before. -/
inductive Step : Sys → Sys → Prop
  | alloc (s : Sys) (kret : Nat)
      (hk : needsBlock s → kret ≠ 0 ∧
        ∀ c ∈ s.provided, blockDisjoint s.sa.slab_size kret c) :
      Step s (sysAlloc s kret)
  | free (s : Sys) (a : Nat) (ha : a ∈ s.live) : Step s (sysFree s a)

/-- A freshly constructed allocator: null free list, no wilderness slab,
offset 0, nothing live, nothing provided. -/
def initSys (S K : Nat) (m0 : Nat → Nat) (i0 : Bool) : Sys :=
  { sa := ⟨0, 0, 0, S, K⟩, mem := m0, ints := i0
    live := [], flist := [], provided := [] }

/-- Address a is a carved slot of the block at base b: it sits at a slot
boundary, its slot fits inside the block, and if b is the current
wilderness slab the slot lies below the wilderness offset. -/
def slotIn (s : Sys) (a b : Nat) : Prop :=
  ∃ i, a = b + i * s.sa.object_size ∧
    i * s.sa.object_size + s.sa.object_size ≤ s.sa.slab_size ∧
    (b = s.sa.wilderness_slab →
      i * s.sa.object_size + s.sa.object_size ≤ s.sa.wilderness_offset)

/-- Invariant of reachable allocator states: positive object size fitting
the slab; the ghost free list matches the in-memory chain; live and
free-listed addresses are pairwise disjoint slots, each carved from some
provided block (below the offset if in the wilderness slab); provided
blocks are non-null and pairwise disjoint; and the wilderness slab, when
present, is a provided block whose offset is a slot multiple within the
slab size. -/
def SlabInv (s : Sys) : Prop :=
  0 < s.sa.object_size ∧
  s.sa.object_size ≤ s.sa.slab_size ∧
  flRep s.mem s.sa.free_list s.flist ∧
  (s.live ++ s.flist).Pairwise (rangeDisjoint s.sa.object_size) ∧
  (∀ a ∈ s.live ++ s.flist, ∃ b ∈ s.provided, slotIn s a b) ∧
  s.provided.Pairwise (blockDisjoint s.sa.slab_size) ∧
  (∀ b ∈ s.provided, b ≠ 0) ∧
  (s.sa.wilderness_slab ≠ 0 →
    s.sa.wilderness_slab ∈ s.provided ∧
    (∃ m, s.sa.wilderness_offset = m * s.sa.object_size) ∧
    s.sa.wilderness_offset ≤ s.sa.slab_size)

/-- sysAlloc on the pop path, written out. -/
theorem sysAlloc_pop_eq (s : Sys) (kret : Nat)
    (hfl : s.sa.free_list ≠ 0) :
    sysAlloc s kret =
      ⟨{ s.sa with free_list := s.mem s.sa.free_list }, s.mem, s.ints,
        s.sa.free_list :: s.live, s.flist.tail, s.provided⟩ := by
  unfold sysAlloc
  rw [slab_alloc_pop s.sa s.mem s.ints kret hfl]
  simp [hfl]

/-- sysAlloc on the new-block path, written out. -/
theorem sysAlloc_newblock_eq (s : Sys) (kret : Nat)
    (hfl : s.sa.free_list = 0)
    (hneed : s.sa.wilderness_slab = 0 ∨
      s.sa.wilderness_offset + s.sa.object_size > s.sa.slab_size) :
    sysAlloc s kret =
      ⟨{ s.sa with wilderness_slab := kret
                   wilderness_offset := s.sa.object_size }, s.mem, s.ints,
        kret :: s.live, s.flist, kret :: s.provided⟩ := by
  unfold sysAlloc
  rw [slab_alloc_newblock s.sa s.mem s.ints kret hfl hneed]
  simp [hfl]

/-- sysAlloc on the carve-from-wilderness path, written out. -/
theorem sysAlloc_carve_eq (s : Sys) (kret : Nat)
    (hfl : s.sa.free_list = 0) (hws : s.sa.wilderness_slab ≠ 0)
    (hfit : s.sa.wilderness_offset + s.sa.object_size ≤ s.sa.slab_size) :
    sysAlloc s kret =
      ⟨{ s.sa with wilderness_offset :=
            s.sa.wilderness_offset + s.sa.object_size }, s.mem, s.ints,
        (s.sa.wilderness_slab + s.sa.wilderness_offset) :: s.live,
        s.flist, s.provided⟩ := by
  unfold sysAlloc
  rw [slab_alloc_carve s.sa s.mem s.ints kret hfl hws hfit]
  simp [hfl]

/-- sysFree, written out. -/
theorem sysFree_eq (s : Sys) (a : Nat) :
    sysFree s a =
      ⟨{ s.sa with free_list := a },
        fun x => if x = a then s.sa.free_list else s.mem x, s.ints,
        s.live.erase a, a :: s.flist, s.provided⟩ := by
  unfold sysFree slab_free
  simp [disable_interrupts, restore_interrupts]

/-- Updating memory at an address outside a chain does not disturb the
chain. -/
theorem flRep_update (mem : Nat → Nat) (v a : Nat) :
    ∀ (l : List Nat) (fl : Nat), (∀ x ∈ l, x ≠ a) → flRep mem fl l →
    flRep (fun y => if y = a then v else mem y) fl l := by
  intro l
  induction l with
  | nil => intro fl _ h; exact h
  | cons x rest ih =>
    intro fl hne h
    obtain ⟨hfl, hrest⟩ := h
    refine ⟨hfl, ?_⟩
    have hxa : x ≠ a := hne x (List.mem_cons_self x rest)
    have : (fun y => if y = a then v else mem y) x = mem x := if_neg hxa
    rw [this]
    exact ih (mem x) (fun y hy => hne y (List.mem_cons_of_mem x hy)) hrest

/-- In an invariant state every live or free-listed address is non-null. -/
theorem elem_ne_zero (s : Sys) (h : SlabInv s) :
    ∀ a ∈ s.live ++ s.flist, a ≠ 0 := by
  obtain ⟨_, _, _, _, hcert, _, hnz, _⟩ := h
  intro a ha
  obtain ⟨b, hb, i, hai, _, _⟩ := hcert a ha
  have := hnz b hb
  omega

/-- A non-null free_list head is the head of the ghost free list. -/
theorem flist_head (s : Sys)
    (hrep : flRep s.mem s.sa.free_list s.flist)
    (hfl : s.sa.free_list ≠ 0) :
    ∃ rest, s.flist = s.sa.free_list :: rest := by
  cases hc : s.flist with
  | nil => rw [hc] at hrep; exact absurd hrep hfl
  | cons x rest =>
    rw [hc] at hrep
    exact ⟨rest, by rw [hrep.1]⟩

/-- A null free_list head means the ghost free list is empty. -/
theorem flist_nil (s : Sys) (h : SlabInv s)
    (hfl : s.sa.free_list = 0) : s.flist = [] := by
  have hrep := h.2.2.1
  cases hc : s.flist with
  | nil => rfl
  | cons x rest =>
    exfalso
    have hx : x ∈ s.live ++ s.flist := by
      rw [hc]; exact List.mem_append_right _ (List.mem_cons_self x rest)
    have hxz := elem_ne_zero s h x hx
    rw [hc] at hrep
    exact hxz (hrep.1 ▸ hfl)

/-- The invariant is preserved by an allocation that pops the free list. -/
theorem SlabInv_pop (s : Sys) (kret : Nat) (h : SlabInv s)
    (hfl : s.sa.free_list ≠ 0) : SlabInv (sysAlloc s kret) := by
  obtain ⟨hS, hSK, hrep, hpair, hcert, hprov, hnz, hws⟩ := h
  obtain ⟨rest, hrest⟩ := flist_head s hrep hfl
  rw [sysAlloc_pop_eq s kret hfl]
  rw [hrest] at hpair hcert hrep
  obtain ⟨-, hrep2⟩ := hrep
  refine ⟨hS, hSK, ?_, ?_, ?_, hprov, hnz, hws⟩
  · show flRep s.mem (s.mem s.sa.free_list) (s.flist.tail)
    rw [hrest, List.tail_cons]
    exact hrep2
  · show ((s.sa.free_list :: s.live) ++ s.flist.tail).Pairwise _
    rw [hrest, List.tail_cons]
    exact (List.Perm.pairwise_iff (fun hxy => rangeDisjoint_symm _ hxy)
      List.perm_middle).mp hpair
  · intro a ha
    rw [hrest, List.tail_cons] at ha
    exact hcert a (List.perm_middle.symm.subset ha)

/-- The invariant is preserved by an allocation that installs a fresh,
non-null, non-overlapping provider block. -/
theorem SlabInv_newblock (s : Sys) (kret : Nat) (h : SlabInv s)
    (hfl : s.sa.free_list = 0)
    (hneed : s.sa.wilderness_slab = 0 ∨
      s.sa.wilderness_offset + s.sa.object_size > s.sa.slab_size)
    (hk0 : kret ≠ 0)
    (hkd : ∀ c ∈ s.provided, blockDisjoint s.sa.slab_size kret c) :
    SlabInv (sysAlloc s kret) := by
  have hfnil : s.flist = [] := flist_nil s h hfl
  obtain ⟨hS, hSK, hrep, hpair, hcert, hprov, hnz, hws⟩ := h
  have hK : 0 < s.sa.slab_size := lt_of_lt_of_le hS hSK
  have hkne : ∀ b ∈ s.provided, kret ≠ b := by
    intro b hb
    rcases hkd b hb with h1 | h1 <;> omega
  rw [sysAlloc_newblock_eq s kret hfl hneed]
  refine ⟨hS, hSK, hrep, ?_, ?_, ?_, ?_, ?_⟩
  · show ((kret :: s.live) ++ s.flist).Pairwise
      (rangeDisjoint s.sa.object_size)
    rw [hfnil, List.append_nil]
    rw [hfnil, List.append_nil] at hpair
    refine List.pairwise_cons.mpr ⟨?_, hpair⟩
    intro x hx
    obtain ⟨b, hb, i, hxi, hiK, -⟩ :=
      hcert x (List.mem_append_left _ hx)
    rcases hkd b hb with h1 | h1
    · left; omega
    · right; omega
  · intro a ha
    rw [hfnil, List.append_nil] at ha
    rcases List.mem_cons.mp ha with h0 | hlive
    · refine ⟨kret, List.mem_cons_self _ _, 0, ?_, ?_, ?_⟩
      · show a = kret + 0 * s.sa.object_size
        omega
      · show 0 * s.sa.object_size + s.sa.object_size ≤ s.sa.slab_size
        omega
      · intro _
        show 0 * s.sa.object_size + s.sa.object_size ≤ s.sa.object_size
        omega
    · obtain ⟨b, hb, i, hxi, hiK, -⟩ :=
        hcert a (List.mem_append_left _ hlive)
      refine ⟨b, List.mem_cons_of_mem _ hb, i, hxi, hiK, ?_⟩
      intro hbws
      exact absurd hbws.symm (hkne b hb)
  · exact List.pairwise_cons.mpr ⟨hkd, hprov⟩
  · intro b hb
    rcases List.mem_cons.mp hb with h0 | hb2
    · rw [h0]; exact hk0
    · exact hnz b hb2
  · intro _
    refine ⟨List.mem_cons_self _ _, ⟨1, ?_⟩, hSK⟩
    show s.sa.object_size = 1 * s.sa.object_size
    rw [Nat.one_mul]

/-- The invariant is preserved by an allocation that carves the next slot
from the current wilderness slab. -/
theorem SlabInv_carve (s : Sys) (kret : Nat) (h : SlabInv s)
    (hfl : s.sa.free_list = 0) (hws0 : s.sa.wilderness_slab ≠ 0)
    (hfit : s.sa.wilderness_offset + s.sa.object_size ≤ s.sa.slab_size) :
    SlabInv (sysAlloc s kret) := by
  have hfnil : s.flist = [] := flist_nil s h hfl
  obtain ⟨hS, hSK, hrep, hpair, hcert, hprov, hnz, hws⟩ := h
  obtain ⟨hwsp, ⟨m, hm⟩, hoffK⟩ := hws hws0
  rw [sysAlloc_carve_eq s kret hfl hws0 hfit]
  refine ⟨hS, hSK, hrep, ?_, ?_, hprov, hnz, ?_⟩
  · show (((s.sa.wilderness_slab + s.sa.wilderness_offset) :: s.live) ++
      s.flist).Pairwise (rangeDisjoint s.sa.object_size)
    rw [hfnil, List.append_nil]
    rw [hfnil, List.append_nil] at hpair
    refine List.pairwise_cons.mpr ⟨?_, hpair⟩
    intro x hx
    obtain ⟨b, hb, i, hxi, hiK, hwsC⟩ :=
      hcert x (List.mem_append_left _ hx)
    by_cases hbws : b = s.sa.wilderness_slab
    · have := hwsC hbws
      right; omega
    · have hbd : blockDisjoint s.sa.slab_size b s.sa.wilderness_slab :=
        (List.Pairwise.forall (blockDisjoint_symm _) hprov) hb hwsp hbws
      rcases hbd with h1 | h1
      · right; omega
      · left; omega
  · intro a ha
    rw [hfnil, List.append_nil] at ha
    rcases List.mem_cons.mp ha with h0 | hlive
    · refine ⟨s.sa.wilderness_slab, hwsp, m, ?_, ?_, ?_⟩
      · show a = s.sa.wilderness_slab + m * s.sa.object_size
        omega
      · show m * s.sa.object_size + s.sa.object_size ≤ s.sa.slab_size
        omega
      · intro _
        show m * s.sa.object_size + s.sa.object_size ≤
          s.sa.wilderness_offset + s.sa.object_size
        omega
    · obtain ⟨b, hb, i, hxi, hiK, hwsC⟩ :=
        hcert a (List.mem_append_left _ hlive)
      refine ⟨b, hb, i, hxi, hiK, ?_⟩
      intro hbws
      have := hwsC hbws
      show i * s.sa.object_size + s.sa.object_size ≤
        s.sa.wilderness_offset + s.sa.object_size
      omega
  · intro _
    refine ⟨hwsp, ⟨m + 1, ?_⟩, hfit⟩
    show s.sa.wilderness_offset + s.sa.object_size
      = (m + 1) * s.sa.object_size
    rw [Nat.add_mul, Nat.one_mul, hm]

/-- The invariant is preserved by freeing a live address. -/
theorem SlabInv_free (s : Sys) (a : Nat) (h : SlabInv s)
    (ha : a ∈ s.live) : SlabInv (sysFree s a) := by
  obtain ⟨hS, hSK, hrep, hpair, hcert, hprov, hnz, hws⟩ := h
  have hane : ∀ x ∈ s.flist, x ≠ a := by
    intro x hx
    have hrel := (List.pairwise_append.mp hpair).2.2 a ha x hx
    exact Ne.symm (rangeDisjoint_ne hS hrel)
  rw [sysFree_eq s a]
  refine ⟨hS, hSK, ?_, ?_, ?_, hprov, hnz, hws⟩
  · show flRep (fun x => if x = a then s.sa.free_list else s.mem x) a
      (a :: s.flist)
    refine ⟨rfl, ?_⟩
    have hif : (fun x => if x = a then s.sa.free_list else s.mem x) a
        = s.sa.free_list := if_pos rfl
    rw [hif]
    exact flRep_update s.mem s.sa.free_list a s.flist s.sa.free_list
      hane hrep
  · show (s.live.erase a ++ a :: s.flist).Pairwise
      (rangeDisjoint s.sa.object_size)
    have perm1 : (s.live.erase a ++ a :: s.flist).Perm
        (a :: (s.live.erase a ++ s.flist)) := List.perm_middle
    have perm2 : (a :: (s.live.erase a ++ s.flist)).Perm
        (s.live ++ s.flist) :=
      (List.perm_cons_erase ha).symm.append_right s.flist
    exact (List.Perm.pairwise_iff (fun hxy => rangeDisjoint_symm _ hxy)
      (perm1.trans perm2)).mpr hpair
  · intro x hx
    have hx2 : x ∈ s.live ++ s.flist := by
      rcases List.mem_append.mp hx with h1 | h1
      · exact List.mem_append_left _ (List.erase_subset _ _ h1)
      · rcases List.mem_cons.mp h1 with h2 | h2
        · rw [h2]; exact List.mem_append_left _ ha
        · exact List.mem_append_right _ h2
    obtain ⟨b, hb, i, hxi, hiK, hwsC⟩ := hcert x hx2
    exact ⟨b, hb, i, hxi, hiK, hwsC⟩

/-- The invariant is preserved by every transition. -/
theorem SlabInv_step (s s2 : Sys) (hst : Step s s2) (h : SlabInv s) :
    SlabInv s2 := by
  cases hst with
  | alloc kret hk =>
    by_cases hfl : s.sa.free_list ≠ 0
    · exact SlabInv_pop s kret h hfl
    · push_neg at hfl
      by_cases hneed : s.sa.wilderness_slab = 0 ∨
        s.sa.wilderness_offset + s.sa.object_size > s.sa.slab_size
      · obtain ⟨hk0, hkd⟩ := hk ⟨hfl, hneed⟩
        exact SlabInv_newblock s kret h hfl hneed hk0 hkd
      · push_neg at hneed
        exact SlabInv_carve s kret h hfl hneed.1 hneed.2
  | free a ha => exact SlabInv_free s a h ha

/-- A freshly constructed allocator satisfies the invariant. -/
theorem SlabInv_init (S K : Nat) (m0 : Nat → Nat) (i0 : Bool)
    (hS : 0 < S) (hSK : S ≤ K) : SlabInv (initSys S K m0 i0) := by
  refine ⟨hS, hSK, rfl, List.Pairwise.nil, ?_, List.Pairwise.nil, ?_, ?_⟩
  · intro a ha; simp [initSys] at ha
  · intro b hb; simp [initSys] at hb
  · intro hws; simp [initSys] at hws

/-- The invariant holds in every state reachable from an invariant
state. -/
theorem SlabInv_reachable (s0 s : Sys)
    (hr : Relation.ReflTransGen Step s0 s) (h : SlabInv s0) :
    SlabInv s := by
  induction hr with
  | refl => exact h
  | tail h1 h2 ih => exact SlabInv_step _ _ h2 ih

/-- C2: in every state reachable from a fresh allocator (provider blocks
non-null and non-overlapping, frees only of live addresses), the live and
free-listed addresses are pairwise disjoint as object_size byte ranges —
so successful allocations return disjoint addresses until a free makes
one eligible for reuse — and no byte of any live or free-listed slot lies
in the uncarved wilderness region (from the wilderness offset to the end
of the wilderness slab): live, free and uncarved do not overlap. -/
theorem no_overlap_reachable (S K : Nat) (m0 : Nat → Nat) (i0 : Bool)
    (s : Sys) (hS : 0 < S) (hSK : S ≤ K)
    (hr : Relation.ReflTransGen Step (initSys S K m0 i0) s) :
    (s.live ++ s.flist).Pairwise (rangeDisjoint s.sa.object_size) ∧
    (∀ a ∈ s.live ++ s.flist, ∀ x, inSlot a s.sa.object_size x →
      s.sa.wilderness_slab ≠ 0 →
      ¬ (s.sa.wilderness_slab + s.sa.wilderness_offset ≤ x ∧
         x < s.sa.wilderness_slab + s.sa.slab_size)) := by
  have hinv := SlabInv_reachable _ _ hr (SlabInv_init S K m0 i0 hS hSK)
  obtain ⟨hS2, hSK2, hrep, hpair, hcert, hprov, hnz, hws⟩ := hinv
  refine ⟨hpair, ?_⟩
  intro a ha x hx hws0 hbad
  obtain ⟨hwsp, -, -⟩ := hws hws0
  obtain ⟨b, hb, i, hai, hiK, hwsC⟩ := hcert a ha
  obtain ⟨hx1, hx2⟩ := hx
  obtain ⟨hbad1, hbad2⟩ := hbad
  by_cases hbws : b = s.sa.wilderness_slab
  · have h1 := hwsC hbws
    omega
  · have hbd : blockDisjoint s.sa.slab_size b s.sa.wilderness_slab :=
      (List.Pairwise.forall (blockDisjoint_symm _) hprov) hb hwsp hbws
    rcases hbd with h1 | h1 <;> omega

/-- A concrete reachable state used to instantiate no_overlap_reachable:
allocate once from a fresh 16/64 allocator (block 100), then free the
returned address. -/
def sysW : Sys := sysFree (sysAlloc (initSys 16 64 zeroMem true) 100) 100

/-- Witness instantiating no_overlap_reachable at the concrete two-step
reachable state sysW. -/
theorem no_overlap_reachable_witness :
    (sysW.live ++ sysW.flist).Pairwise
      (rangeDisjoint sysW.sa.object_size) ∧
    (∀ a ∈ sysW.live ++ sysW.flist, ∀ x,
      inSlot a sysW.sa.object_size x → sysW.sa.wilderness_slab ≠ 0 →
      ¬ (sysW.sa.wilderness_slab + sysW.sa.wilderness_offset ≤ x ∧
         x < sysW.sa.wilderness_slab + sysW.sa.slab_size)) :=
  no_overlap_reachable 16 64 zeroMem true sysW (by decide) (by decide)
    (Relation.ReflTransGen.head
      (Step.alloc (initSys 16 64 zeroMem true) 100
        (fun _ => ⟨by decide, by decide⟩))
      (Relation.ReflTransGen.single
        (Step.free (sysAlloc (initSys 16 64 zeroMem true) 100) 100
          (by decide))))
